import Mathlib

/-
Verification of the map-inventory module of tetragon's bugtool
(pkg/bugtool/maps.go) against its natural-language specification.

The Go source is shallowly embedded: kernel/OS interactions (the eBPF
object layer, /proc file reads, directory walks) are passed in as
explicit data — scripts of cursor answers, lists of directory entries,
pre-read fd-info line streams — while the control flow of each Go
function is translated statement by statement.  Go errors are modelled
by an inductive type mirroring `fmt.Errorf` wrapping.
-/

set_option autoImplicit false

namespace Bugtool

/-- Errors.  `kernel` stands for a raw error coming from the kernel/OS
layer (its payload is an opaque code); `wrap msg e` models
`fmt.Errorf("msg: %w", e)`; `msg` models `errors.New`/`fmt.Errorf`
without a wrapped cause. -/
inductive Err where
  | kernel (code : Nat)
  | wrap (msg : String) (cause : Err)
  | msg (s : String)
deriving DecidableEq, Repr

/-- Fields of `ebpf.MapInfo` that maps.go reads.  `id` models the
`ID() (MapID, bool)` accessor: `none` when the kernel does not report
an ID. -/
structure MapInfo where
  id : Option Int
  name : String
  typ : Nat
  keySize : Nat
  valueSize : Nat
  maxEntries : Nat
deriving DecidableEq, Repr

/-- Go `ebpf.ProgramArray` map type tag. -/
def programArrayType : Nat := 3

/-- Mirrors `ExtendedMapInfo`: an `ebpf.MapInfo` plus the memlock byte
count parsed from fdinfo. -/
structure ExtendedMapInfo where
  info : MapInfo
  memlock : Int
deriving DecidableEq, Repr

/-- Mirrors `TotalByteMemlock`: sums the memlock field over a slice. -/
def TotalByteMemlock (infos : List ExtendedMapInfo) : Int :=
  (infos.map (fun i => i.memlock)).sum

/-! ## Set algebra (maps.go `inter`, `diff`, `exter`, `union`)

A Go `map[int]T` is modelled pointwise as a function `Int → Option T`;
`m i = some v` means key `i` is present with value `v`.  Each Go
operation builds its result by iterating the keys of its arguments and
conditionally inserting; since the final contents of the result map are
independent of iteration order, the pointwise translation below is
exact. -/

/-- Pointwise model of Go `map[int]T`. -/
def GoIntMap (T : Type) : Type := Int → Option T

/-- Mirrors `inter`: keys present in both `m1` and `m2`, values from
`m1` (`for i := range m1 { if _, exists := m2[i]; exists { ret[i] = m1[i] } }`). -/
def inter {T : Type} (m1 m2 : GoIntMap T) : GoIntMap T := fun i =>
  match m2 i with
  | some _ => m1 i
  | none => none

/-- Mirrors `diff`: keys present in `m1` but absent from `m2`, values
from `m1`. -/
def diff {T : Type} (m1 m2 : GoIntMap T) : GoIntMap T := fun i =>
  match m2 i with
  | some _ => none
  | none => m1 i

/-- Mirrors `exter`: keys present in exactly one of `m1`, `m2`, each
with the value from the map that contains it. -/
def exter {T : Type} (m1 m2 : GoIntMap T) : GoIntMap T := fun i =>
  match m1 i, m2 i with
  | some v, none => some v
  | none, some v => some v
  | some _, some _ => none
  | none, none => none

/-- Mirrors `union`: the first loop copies `m1`, the second overwrites
with `m2`, so on a shared key `m2`'s value wins. -/
def union {T : Type} (m1 m2 : GoIntMap T) : GoIntMap T := fun i =>
  match m2 i with
  | some v => some v
  | none => m1 i

/-! ## FD-info parsing (`parseMemlockFromFDInfoReader`) -/

/-- Character scan behind `goFields`: `acc` holds the characters of
the field currently being read, in reverse. -/
def goFieldsAux : List Char → List Char → List String
  | [], acc => if acc = [] then [] else [String.mk acc.reverse]
  | c :: rest, acc =>
    if c.isWhitespace then
      if acc = [] then goFieldsAux rest []
      else String.mk acc.reverse :: goFieldsAux rest []
    else goFieldsAux rest (c :: acc)

/-- Model of Go `strings.Fields`: split on runs of whitespace, no
empty fields.  (`unicode.IsSpace` and `Char.isWhitespace` agree on the
ASCII text found in fdinfo files.) -/
def goFields (s : String) : List String :=
  goFieldsAux s.toList []

/-- Digit run to number, for `goAtoi`. -/
def digitsToNat (l : List Char) : Nat :=
  l.foldl (fun acc c => acc * 10 + (c.toNat - 48)) 0

/-- Model of Go `strconv.Atoi`: an optional sign followed by a
non-empty digit run; anything else is a parse error (`none`).
Machine-int overflow is not modelled: the claims only involve small
values. -/
def goAtoi (s : String) : Option Int :=
  match s.toList with
  | [] => none
  | c :: rest =>
    if c = '+' then
      if rest ≠ [] ∧ rest.all Char.isDigit then some (digitsToNat rest) else none
    else if c = '-' then
      if rest ≠ [] ∧ rest.all Char.isDigit then some (-(digitsToNat rest : Int)) else none
    else
      if (c :: rest).all Char.isDigit then some (digitsToNat (c :: rest)) else none

/-- An fd-info text stream as `bufio.Scanner` delivers it: the lines
successfully read, followed (optionally) by a read error that
`scanner.Err()` reports once the lines are exhausted. -/
structure FDInfoStream where
  lines : List String
  readErr : Option Err
deriving DecidableEq, Repr

/-- Scan loop of `parseMemlockFromFDInfoReader`: for each line, if it
has at least two fields and the first is `memlock:`, `Atoi` the second
and return; after the last line, surface the scanner's read error if
any, otherwise report that no memlock field was found. -/
def parseMemlockLoop : List String → Option Err → Except Err Int
  | [], none => .error (.msg "didn't find memlock field")
  | [], some e => .error (.wrap "failed to scan" e)
  | line :: rest, re =>
    match goFields line with
    | f0 :: f1 :: _ =>
      if f0 = "memlock:" then
        match goAtoi f1 with
        | some memlock => .ok memlock
        | none => .error (.msg "failed converting memlock to int")
      else parseMemlockLoop rest re
    | _ => parseMemlockLoop rest re

/-- Mirrors `parseMemlockFromFDInfoReader`. -/
def parseMemlockFromFDInfoReader (s : FDInfoStream) : Except Err Int :=
  parseMemlockLoop s.lines s.readErr

/-- Mirrors `parseMemlockFromFDInfo`: `os.Open` of the fdinfo path can
itself fail (modelled by the `Except` argument), otherwise the reader
is parsed. -/
def parseMemlockFromFDInfo (r : Except Err FDInfoStream) : Except Err Int :=
  match r with
  | .error e => .error (.wrap "failed to open file" e)
  | .ok s => parseMemlockFromFDInfoReader s

/-! ## Pinned-tree walker (`FindPinnedMaps`)

`filepath.WalkDir` is modelled by the flat list of entries it visits,
in visit order.  For a non-directory entry, `ebpf.LoadPinnedMap` either
fails (`.error`) or yields a handle carrying the outcomes of the three
subsequent operations on it: the `isMap` classification of its fd, the
`Info()` call, and the fdinfo stream behind `parseMemlockFromFDInfo`. -/

/-- Decidable equality for `Except`, needed to `decide` facts about
concrete runs. -/
instance instDecidableEqExcept {ε α : Type} [DecidableEq ε] [DecidableEq α] :
    DecidableEq (Except ε α) := fun x y =>
  match x, y with
  | .ok a, .ok b =>
    if h : a = b then isTrue (by rw [h]) else isFalse (by intro he; cases he; exact h rfl)
  | .error a, .error b =>
    if h : a = b then isTrue (by rw [h]) else isFalse (by intro he; cases he; exact h rfl)
  | .ok _, .error _ => isFalse (by intro he; cases he)
  | .error _, .ok _ => isFalse (by intro he; cases he)

/-- A handle returned by a successful `ebpf.LoadPinnedMap`, together
with the outcomes of the operations maps.go performs on it. -/
structure PinnedMapObj where
  isMapR : Except Err Bool
  infoR : Except Err MapInfo
  fdinfoR : Except Err FDInfoStream
deriving DecidableEq, Repr

/-- One entry visited by `filepath.WalkDir` during `FindPinnedMaps`. -/
inductive PinnedEntry where
  | dir
  | file (load : Except Err PinnedMapObj)
deriving DecidableEq, Repr

/-- Walk body of `FindPinnedMaps`, with the accumulated `infos` slice:
directories are skipped; a `LoadPinnedMap` failure aborts; a loaded
object classified as not-a-map is skipped (`LoadPinnedMap` succeeds
with garbage on non-maps, hence the explicit check); a classification
error aborts; otherwise `Info()` and the memlock parse are performed,
each failure aborting, and the record is appended. -/
def findPinnedMapsLoop (acc : List ExtendedMapInfo) :
    List PinnedEntry → Except Err (List ExtendedMapInfo)
  | [] => .ok acc
  | .dir :: rest => findPinnedMapsLoop acc rest
  | .file (.error e) :: _ => .error (.wrap "failed to load pinned map" e)
  | .file (.ok obj) :: rest =>
    match obj.isMapR with
    | .error e => .error e
    | .ok false => findPinnedMapsLoop acc rest
    | .ok true =>
      match obj.infoR with
      | .error e => .error (.wrap "failed to retrieve map info" e)
      | .ok info =>
        match parseMemlockFromFDInfo obj.fdinfoR with
        | .error e => .error (.wrap "failed to parse memlock from fd info" e)
        | .ok memlock => findPinnedMapsLoop (acc ++ [⟨info, memlock⟩]) rest

/-- Mirrors `FindPinnedMaps`. -/
def FindPinnedMaps (entries : List PinnedEntry) : Except Err (List ExtendedMapInfo) :=
  findPinnedMapsLoop [] entries

/-- Holds exactly when an entry makes the `FindPinnedMaps` walk body
return a non-nil error: a `LoadPinnedMap` failure, a classification
error, or (for a confirmed map) an `Info()` or memlock-parse failure.
Being classified as not-a-map (wrong kind of object) is not among
these. -/
def pinnedEntryAborts : PinnedEntry → Prop
  | .dir => False
  | .file (.error _) => True
  | .file (.ok obj) =>
      (∃ e, obj.isMapR = Except.error e) ∨
      (obj.isMapR = Except.ok true ∧
        ((∃ e, obj.infoR = Except.error e) ∨
         (∃ e, parseMemlockFromFDInfo obj.fdinfoR = Except.error e)))

/-! ## Map enumerator (`FindAllMaps`)

The kernel's answers to successive `MapGetNextID` calls are given as a
script.  `openMapByID` models `ebpf.NewMapFromID` plus the operations
performed on the resulting handle.  To settle the resource claims the
enumerator is instrumented: it returns, besides its result, the trace
of cursor / open / close events, with `defer m.Close()` given Go's
semantics — the deferred closes accumulate and all run, in LIFO order,
when the function returns (on every exit path). -/

/-- One answer of the `MapGetNextID` cursor. -/
inductive CursorResult where
  | next (id : Int)
  | notFound
  | failure (e : Err)
deriving DecidableEq, Repr

/-- A handle returned by a successful `ebpf.NewMapFromID`, with the
outcomes of `Info()` and of opening/reading its fdinfo. -/
structure MapObj where
  infoR : Except Err MapInfo
  fdinfoR : Except Err FDInfoStream
deriving DecidableEq, Repr

/-- Observable events of the enumeration. -/
inductive Event where
  | cursor (prev : Int)
  | openMap (id : Int)
  | closeMap (id : Int)
deriving DecidableEq, Repr

/-- Runs the accumulated `defer m.Close()` calls: the defer stack holds
the most recently opened id first, so mapping it in order is LIFO. -/
def flushDefers (defers : List Int) : List Event :=
  defers.map Event.closeMap

/-- Main loop of `FindAllMaps`.  `prev` is the mutable `mapID` cursor
variable (initially the zero value), `acc` the `mapInfos` slice,
`defers` the pending `defer m.Close()` stack, `trace` the events so
far.  An exhausted script behaves like the kernel answering ENOENT. -/
def findAllMapsLoop (openMapByID : Int → Except Err MapObj) (prev : Int)
    (acc : List ExtendedMapInfo) (defers : List Int) (trace : List Event) :
    List CursorResult → Except Err (List ExtendedMapInfo) × List Event
  | [] => (.ok acc, trace ++ flushDefers defers)
  | .notFound :: _ => (.ok acc, trace ++ [Event.cursor prev] ++ flushDefers defers)
  | .failure e :: _ =>
    (.error (.wrap "didn't receive ENOENT at the end of iteration" e),
     trace ++ [Event.cursor prev] ++ flushDefers defers)
  | .next id :: rest =>
    match openMapByID id with
    | .error e =>
      (.error (.wrap "failed to retrieve map from ID" e),
       trace ++ [Event.cursor prev] ++ flushDefers defers)
    | .ok m =>
      match m.infoR with
      | .error e =>
        (.error (.wrap "failed to retrieve map info" e),
         trace ++ [Event.cursor prev, Event.openMap id] ++ flushDefers (id :: defers))
      | .ok info =>
        match parseMemlockFromFDInfo m.fdinfoR with
        | .error e =>
          (.error (.wrap "failed parsing fdinfo to retrieve memlock" e),
           trace ++ [Event.cursor prev, Event.openMap id] ++ flushDefers (id :: defers))
        | .ok memlock =>
          findAllMapsLoop openMapByID id (acc ++ [⟨info, memlock⟩]) (id :: defers)
            (trace ++ [Event.cursor prev, Event.openMap id]) rest

/-- Mirrors `FindAllMaps`, instrumented with the event trace. -/
def FindAllMapsT (openMapByID : Int → Except Err MapObj) (script : List CursorResult) :
    Except Err (List ExtendedMapInfo) × List Event :=
  findAllMapsLoop openMapByID 0 [] [] [] script

/-- Result of `FindAllMaps` (trace discarded). -/
def FindAllMaps (openMapByID : Int → Except Err MapObj) (script : List CursorResult) :
    Except Err (List ExtendedMapInfo) :=
  (FindAllMapsT openMapByID script).1

/-- Record that the `FindAllMaps` loop body builds for one enumerated
id when every step succeeds; `none` when opening, `Info()` or the
memlock parse fails. -/
def extractRec (openMapByID : Int → Except Err MapObj) (id : Int) :
    Option ExtendedMapInfo :=
  match openMapByID id with
  | .error _ => none
  | .ok m =>
    match m.infoR, parseMemlockFromFDInfo m.fdinfoR with
    | .ok info, .ok memlock => some ⟨info, memlock⟩
    | _, _ => none

/-- Records for a whole id list, `none` as soon as one id fails. -/
def extractAll (openMapByID : Int → Except Err MapObj) :
    List Int → Option (List ExtendedMapInfo)
  | [] => some []
  | id :: rest =>
    match extractRec openMapByID id, extractAll openMapByID rest with
    | some r, some rs => some (r :: rs)
    | _, _ => none

/-! ## Program reference resolver (`mapIDsFromProgs`, `mapIDsFromPinnedProgs`)

The Go code dedupes map IDs through `map[int]bool` sets and returns
`maps.Keys` of them.  Go's key order is unspecified; the model keeps
the set as a duplicate-free list in insertion order, and set-level
claims are stated up to `List.toFinset`. -/

/-- Insertion `mapSet[id] = true` into a `map[int]bool` modelled as a
duplicate-free list. -/
def setInsert (s : List Int) (x : Int) : List Int :=
  if x ∈ s then s else s ++ [x]

/-- Inserts every element of `ids`. -/
def setInsertAll (s : List Int) (ids : List Int) : List Int :=
  ids.foldl setInsert s

/-- Fields of `ebpf.ProgramInfo` that maps.go reads: `MapIDs()` with
its availability flag (absent before kernel 4.15). -/
structure ProgInfo where
  mapIDs : Option (List Int)
deriving DecidableEq, Repr

/-- Mirrors `mapIDsFromProgs` on a non-nil prog: `Info()` failure is
wrapped; a missing `MapIDs` field is the unsupported-kernel error;
otherwise the IDs are deduplicated through a set.  The argument is the
outcome of `prog.Info()`. -/
def mapIDsFromProgs (progInfoR : Except Err ProgInfo) : Except Err (List Int) :=
  match progInfoR with
  | .error e => .error (.wrap "failed to retrieve prog info" e)
  | .ok info =>
    match info.mapIDs with
    | none => .error (.msg "can't link prog to map IDs, field available from 4.15")
    | some ids => .ok (setInsertAll [] ids)

/-- Iteration behaviour of a program-array map: the `(key, value)`
entries `Iterate` yields, and optionally the error the iterator runs
into after them. -/
structure IterScript where
  entries : List (Nat × Nat)
  failAtEnd : Option Err
deriving DecidableEq, Repr

/-- A handle returned by a successful `ebpf.LoadPinnedMap` inside the
pinned-prog walk: its `Type()` tag and its iteration behaviour. -/
structure PinMapHandle where
  typ : Nat
  iter : IterScript
deriving DecidableEq, Repr

/-- A handle returned by a successful `ebpf.LoadPinnedProgram`, with
the outcomes of the operations maps.go performs on it or on its path:
the `isProg` and `isMap` fd classifications, `prog.Info()`, and the
`ebpf.LoadPinnedMap` re-load of the same path. -/
structure PinProgObj where
  isProgR : Except Err Bool
  isMapR : Except Err Bool
  progInfoR : Except Err ProgInfo
  loadMapR : Except Err PinMapHandle
deriving DecidableEq, Repr

/-- One entry visited by `filepath.WalkDir` during
`mapIDsFromPinnedProgs`. -/
inductive ProgEntry where
  | dir
  | file (load : Except Err PinProgObj)
deriving DecidableEq, Repr

/-- Walk body of `mapIDsFromPinnedProgs`: directories skipped; a
`LoadPinnedProgram` failure aborts; a non-prog entry is re-examined
with `isMap` and, when it is a program-array map, its handle is
retained for later tail-call resolution (other maps are closed and
skipped, non-map non-prog objects are skipped); classification and
load errors abort; for a confirmed program, `mapIDsFromProgs` feeds
the map-ID set, its failure aborting. -/
def progWalkLoop (mapSet : List Int) (progArrays : List PinMapHandle) :
    List ProgEntry → Except Err (List Int × List PinMapHandle)
  | [] => .ok (mapSet, progArrays)
  | .dir :: rest => progWalkLoop mapSet progArrays rest
  | .file (.error e) :: _ => .error (.wrap "failed to load pinned object" e)
  | .file (.ok obj) :: rest =>
    match obj.isProgR with
    | .error e => .error e
    | .ok false =>
      match obj.isMapR with
      | .error e => .error e
      | .ok false => progWalkLoop mapSet progArrays rest
      | .ok true =>
        match obj.loadMapR with
        | .error e => .error (.wrap "failed to load pinned map" e)
        | .ok m =>
          if m.typ = programArrayType then
            progWalkLoop mapSet (progArrays ++ [m]) rest
          else
            progWalkLoop mapSet progArrays rest
    | .ok true =>
      match mapIDsFromProgs obj.progInfoR with
      | .error e => .error (.wrap "failed to retrieve map IDs from prog" e)
      | .ok newIDs => progWalkLoop (setInsertAll mapSet newIDs) progArrays rest

/-- The `for progArrayIterator.Next(&key, &value)` loop of
`mapIDsFromPinnedProgs`, transcribed as written against the
cilium/ebpf `MapIterator` contract: `Next` yields the scripted entries
in order and returns false once they are exhausted — setting the
iterator's error when the script ends in a failure — and every path of
`Next` that records an error returns false, so after a successful
`Next` the error is still nil.  `errAfterNext` below is that
always-nil value; the `Err()` check the source places inside the loop
body reads it, so its abort branch is unreachable.  When `Next`
returns false the loop exits and the accumulated values are returned;
the source has no `Err()` check after the loop, so a `failAtEnd` error
is dropped. -/
def progArrayGo (failAtEnd : Option Err) (acc : List Nat) :
    List (Nat × Nat) → Except Err (List Nat)
  | [] => .ok acc
  | (_, v) :: rest =>
    let errAfterNext : Option Err := none
    let acc' := acc ++ [v]
    match errAfterNext with
    | some e => .error (.wrap "failed to iterate over prog array map" e)
    | none => progArrayGo failAtEnd acc' rest

/-- Runs the prog-array iteration loop on one retained handle. -/
def progArrayLoop (acc : List Nat) (it : IterScript) : Except Err (List Nat) :=
  progArrayGo it.failAtEnd acc it.entries

/-- Second phase of `mapIDsFromPinnedProgs`: collect the program IDs
stored in every retained program-array map. -/
def collectProgIDs (acc : List Nat) : List PinMapHandle → Except Err (List Nat)
  | [] => .ok acc
  | pa :: rest =>
    match progArrayLoop acc pa.iter with
    | .error e => .error e
    | .ok acc' => collectProgIDs acc' rest

/-- A handle returned by a successful `ebpf.NewProgramFromID`, with
the outcome of `prog.Info()`. -/
structure ProgHandle where
  infoR : Except Err ProgInfo
deriving DecidableEq, Repr

/-- Third phase of `mapIDsFromPinnedProgs`: open each collected
program ID and union its referenced map IDs into the set; open and
resolve failures abort. -/
def resolveProgIDs (openProgByID : Nat → Except Err ProgHandle) (mapSet : List Int) :
    List Nat → Except Err (List Int)
  | [] => .ok mapSet
  | pid :: rest =>
    match openProgByID pid with
    | .error e => .error (.wrap "failed to create new program from id" e)
    | .ok prog =>
      match mapIDsFromProgs prog.infoR with
      | .error e => .error (.wrap "failed to retrieve map IDs from prog" e)
      | .ok newIDs => resolveProgIDs openProgByID (setInsertAll mapSet newIDs) rest

/-- Mirrors `mapIDsFromPinnedProgs`: walk the pinned directory, then
iterate the retained program arrays, then resolve the collected
program IDs; the final `maps.Keys(mapSet)` is the duplicate-free list
the model maintains. -/
def mapIDsFromPinnedProgs (openProgByID : Nat → Except Err ProgHandle)
    (entries : List ProgEntry) : Except Err (List Int) :=
  match progWalkLoop [] [] entries with
  | .error e => .error (.wrap "failed walking the path" e)
  | .ok (mapSet, progArrays) =>
    match collectProgIDs [] progArrays with
    | .error e => .error e
    | .ok progIDs => resolveProgIDs openProgByID mapSet progIDs

/-! ## Aggregation (`RunMapsChecks`, lines 443-478)

`aggregatedMapsSet` is a `map[string]struct{ExtendedMapInfo; count int}`,
modelled as an association list keyed by name (Go's iteration order of
the union map is unspecified, so the claims quantify over every input
order).  `sort.Slice` is an unstable in-place sort; it is modelled by
`List.insertionSort`, which produces a permutation ordered the same
way.  `PercentOfTotal` is floating point and outside this model. -/

/-- Value type of `aggregatedMapsSet`: the embedded `ExtendedMapInfo`
(whose memlock field accumulates the group total) plus the instance
count. -/
structure AggEntry where
  info : ExtendedMapInfo
  count : Nat
deriving DecidableEq, Repr

/-- Lookup `aggregatedMapsSet[name]`. -/
def lookupName : List (String × AggEntry) → String → Option AggEntry
  | [], _ => none
  | p :: rest, n => if p.1 = n then some p.2 else lookupName rest n

/-- Store `aggregatedMapsSet[name] = v` for a name already present. -/
def updateName (s : List (String × AggEntry)) (n : String) (v : AggEntry) :
    List (String × AggEntry) :=
  s.map (fun p => if p.1 = n then (n, v) else p)

/-- Body of the aggregation loop for one union record `m`: an existing
group gets `e.Memlock += m.Memlock; e.count++`, a new name is inserted
with count 1 carrying `m`'s metadata. -/
def aggStep (s : List (String × AggEntry)) (m : ExtendedMapInfo) :
    List (String × AggEntry) :=
  match lookupName s m.info.name with
  | some e =>
    updateName s m.info.name
      { e with info := { e.info with memlock := e.info.memlock + m.memlock },
               count := e.count + 1 }
  | none => s ++ [(m.info.name, ⟨m, 1⟩)]

/-- The aggregation loop over the union records. -/
def aggregate (unionRecs : List ExtendedMapInfo) : List (String × AggEntry) :=
  unionRecs.foldl aggStep []

/-- Mirrors the `AggregatedMap` output struct (minus the
floating-point `PercentOfTotal`). -/
structure AggregatedMap where
  name : String
  typ : Nat
  keySize : Nat
  valueSize : Nat
  maxEntries : Nat
  count : Nat
  totalMemlock : Int
deriving DecidableEq, Repr

/-- Builds the `out.AggregatedMaps` list from the union records:
group values, sort descending by accumulated memlock, project into
the output struct with `TotalMemlock` the group total. -/
def buildAggregatedMaps (unionRecs : List ExtendedMapInfo) : List AggregatedMap :=
  let values := (aggregate unionRecs).map Prod.snd
  let sorted := values.insertionSort (fun a b => a.info.memlock ≥ b.info.memlock)
  sorted.map (fun e =>
    { name := e.info.info.name, typ := e.info.info.typ,
      keySize := e.info.info.keySize, valueSize := e.info.info.valueSize,
      maxEntries := e.info.info.maxEntries, count := e.count,
      totalMemlock := e.info.memlock })

/-! ## Auxiliary notions used to state the claims -/

/-- Whether a line has at least two whitespace-delimited fields, the
first being the literal token `memlock:` — the lines the scan loop
stops at. -/
def isMemlockLine (l : String) : Bool :=
  match goFields l with
  | f0 :: _ :: _ => f0 = "memlock:"
  | _ => false

/-- Second whitespace-delimited field of a line, when it exists. -/
def secondField (l : String) : Option String :=
  match goFields l with
  | _ :: f1 :: _ => some f1
  | _ => none

/-- Expected outcome of the fd-info parser, written after the
(amended) claim's words rather than the source's loop: find the first
line with at least two fields whose first field is `memlock:`; if one
exists, `Atoi` its second field, a parse failure being an error;
otherwise surface the read error if the stream ended because of one,
and a not-found error if not. -/
def memlockSpec (s : FDInfoStream) : Except Err Int :=
  match s.lines.find? isMemlockLine with
  | some l =>
    match (secondField l).bind goAtoi with
    | some n => .ok n
    | none => .error (.msg "failed converting memlock to int")
  | none =>
    match s.readErr with
    | some e => .error (.wrap "failed to scan" e)
    | none => .error (.msg "didn't find memlock field")

/-- Occurrence count of an element in a list. -/
def countOf {α : Type} [DecidableEq α] (a : α) : List α → Nat
  | [] => 0
  | x :: rest => (if x = a then 1 else 0) + countOf a rest

/-- Total of the accumulated memlock fields of an aggregation set. -/
def sumAgg (s : List (String × AggEntry)) : Int :=
  (s.map (fun p => p.2.info.memlock)).sum

/-- The keys of the aggregation set are distinct, as the keys of a Go
map are. -/
def namesNodup (s : List (String × AggEntry)) : Prop :=
  (s.map Prod.fst).Nodup

/-! ## Concrete environments used by witnesses and counterexamples -/

/-- Collection `{1 ↦ 0}` over `Int` values. -/
def exA : GoIntMap Int := fun i => if i = 1 then some 0 else none

/-- Collection `{1 ↦ 1}` over `Int` values. -/
def exB : GoIntMap Int := fun i => if i = 1 then some 1 else none

/-- A loaded pinned object whose fd classifies as not-a-map. -/
def wrongKindObj : PinnedMapObj :=
  { isMapR := .ok false, infoR := .error (.kernel 0), fdinfoR := .error (.kernel 0) }

/-- Map metadata for the enumerated id `id`. -/
def sampleInfo (id : Int) : MapInfo :=
  { id := some id, name := "m", typ := 1, keySize := 4, valueSize := 4, maxEntries := 1 }

/-- An fdinfo stream whose memlock line reads 64 bytes. -/
def sampleStream : FDInfoStream := { lines := ["memlock: 64"], readErr := none }

/-- A kernel in which every map id opens successfully with metadata
`sampleInfo id` and memlock 64. -/
def allOpensOK : Int → Except Err MapObj := fun id =>
  .ok { infoR := .ok (sampleInfo id), fdinfoR := .ok sampleStream }

/-- The enriched record `allOpensOK` produces for `id`. -/
def sampleRec (id : Int) : ExtendedMapInfo := { info := sampleInfo id, memlock := 64 }

/-- Pinned-prog directory for the C2 scenario: a single program-array
map whose iterator yields slot 0 ↦ program 42 and then fails. -/
def c2Entries : List ProgEntry :=
  [ProgEntry.file (.ok
    { isProgR := .ok false, isMapR := .ok true, progInfoR := .error (.kernel 0),
      loadMapR := .ok { typ := programArrayType,
                        iter := { entries := [(0, 42)], failAtEnd := some (.kernel 9) } } })]

/-- Kernel for the C2/C6 scenarios: program 42 exists and references
map 7; no other program id is open-able. -/
def openProg42 : Nat → Except Err ProgHandle := fun pid =>
  if pid = 42 then .ok { infoR := .ok { mapIDs := some [7] } } else .error (.kernel 1)

/-- Pinned-prog directory for the C6 scenario: one directly-pinned
program referencing map 5, and one program-array map with slot 0 ↦
program 42. -/
def c6Entries : List ProgEntry :=
  [ProgEntry.file (.ok
    { isProgR := .ok true, isMapR := .ok false, progInfoR := .ok { mapIDs := some [5] },
      loadMapR := .error (.kernel 0) }),
   ProgEntry.file (.ok
    { isProgR := .ok false, isMapR := .ok true, progInfoR := .error (.kernel 0),
      loadMapR := .ok { typ := programArrayType,
                        iter := { entries := [(0, 42)], failAtEnd := none } } })]

/-! ## Theorems -/

/-- C9: the symmetric-difference operation is commutative: for all
keyed-by-integer-ID collections `A` and `B`, `exter A B = exter B A`
as collections — same keys, and for each key the value taken from
whichever input contains it. -/
theorem exter_comm : ∀ (T : Type) (A B : GoIntMap T), exter A B = exter B A := by
  intro T A B
  funext i
  unfold exter
  cases A i <;> cases B i <;> rfl

/-- C3 counterexample: with `A = {1 ↦ 0}` and `B = {1 ↦ 1}`,
`union(A,B)` maps key 1 to B's value 1, while the union of
`diff(A,B)`, `inter(A,B)` and `diff(B,A)` maps it to A's value 0
(carried by `inter`), so the two collections differ. -/
theorem union_decomposition_value_counterexample :
    union exA exB ≠ union (union (diff exA exB) (inter exA exB)) (diff exB exA) := by
  intro h
  have h1 := congrFun h 1
  simp [union, inter, diff, exA, exB] at h1

/-- C3 amended: the disjoint union of `diff(A,B)`, `inter(A,B)` and
`diff(B,A)` equals `union(B,A)` — it has the same key set as
`union(A,B)`, but on keys present in both inputs it carries A's value
where `union(A,B)` carries B's — and the three parts are pairwise
disjoint. -/
theorem union_decomposition_amended :
    ∀ (T : Type) (A B : GoIntMap T),
      union (union (diff A B) (inter A B)) (diff B A) = union B A ∧
      (∀ i, (union A B i).isSome =
        (union (union (diff A B) (inter A B)) (diff B A) i).isSome) ∧
      (∀ i, ¬((diff A B i).isSome = true ∧ (inter A B i).isSome = true)) ∧
      (∀ i, ¬((diff A B i).isSome = true ∧ (diff B A i).isSome = true)) ∧
      (∀ i, ¬((inter A B i).isSome = true ∧ (diff B A i).isSome = true)) := by
  intro T A B
  refine ⟨funext fun i => ?_, fun i => ?_, fun i => ?_, fun i => ?_, fun i => ?_⟩ <;>
    · simp only [union, inter, diff]
      cases A i <;> cases B i <;> simp

/-- C3 witness: the amended decomposition evaluated on the concrete
collections `exA`, `exB`. -/
theorem union_decomposition_amended_witness :
    union (union (diff exA exB) (inter exA exB)) (diff exB exA) = union exB exA :=
  (union_decomposition_amended Int exA exB).1

/-- C2: refuted as stated; the code drops prog-array iteration errors.
In the scenario of `c2Entries` — a single pinned program-array map
whose iterator yields slot 0 ↦ program 42 and then fails — the claim
says `mapIDsFromPinnedProgs` aborts with an error, but the source
checks `progArrayIterator.Err()` only inside the `Next` loop body,
where it is still nil, and never after the loop, so the run succeeds
with the map IDs resolved from the entries seen before the failure. -/
theorem mapIDsFromPinnedProgs_iteration_error_swallowed :
    mapIDsFromPinnedProgs openProg42 c2Entries = .ok [7] := by decide

/-- C6: a pinned-program directory with one directly-pinned program
referencing map 5 and one program-array map whose slot 0 holds program
42, where program 42 references map 7, resolves to exactly the
de-duplicated map-ID set `{5, 7}`. -/
theorem mapIDsFromPinnedProgs_tailcall_scenario :
    ∃ l : List Int, mapIDsFromPinnedProgs openProg42 c6Entries = .ok l ∧
      l.Nodup ∧ l.toFinset = {5, 7} :=
  ⟨[5, 7], by decide, by decide, by decide⟩

/-- C5 counterexample: on a stream whose memlock line carries `-5`,
the parser succeeds and returns the negative value -5 — `strconv.Atoi`
accepts signed integers — contradicting the claim that the second
field is parsed as a non-negative integer. -/
theorem parseMemlock_negative_counterexample :
    parseMemlockFromFDInfoReader ⟨["memlock: -5"], none⟩ = .ok (-5) ∧ (-5 : Int) < 0 :=
  ⟨by decide, by decide⟩

/-- C10: a line whose first field is `memlock:` but which has no
second field — more generally, any line with at most one field — is
skipped without error, and scanning continues on the following lines;
the short-circuit `len(fields) > 1` guard runs before the field is
indexed, and the Lean transcription is a total function. -/
theorem parseMemlock_short_line_skipped :
    ∀ (l1 l2 : List String) (re : Option Err) (line : String),
      (goFields line).length ≤ 1 →
      parseMemlockFromFDInfoReader ⟨l1 ++ line :: l2, re⟩ =
        parseMemlockFromFDInfoReader ⟨l1 ++ l2, re⟩ := by
  intro l1 l2 re line h
  induction l1 with
  | nil =>
    show parseMemlockLoop (line :: l2) re = parseMemlockLoop l2 re
    simp only [parseMemlockLoop]
    cases hg : goFields line with
    | nil => simp
    | cons f0 tl =>
      cases tl with
      | nil => simp
      | cons f1 tl' => rw [hg] at h; simp at h
  | cons a l1' ih =>
    show parseMemlockLoop (a :: (l1' ++ line :: l2)) re =
      parseMemlockLoop (a :: (l1' ++ l2)) re
    simp only [parseMemlockLoop]
    cases goFields a with
    | nil => exact ih
    | cons f0 tl =>
      cases tl with
      | nil => exact ih
      | cons f1 tl' =>
        by_cases hf : f0 = "memlock:"
        · simp [hf]
        · simp only [if_neg hf]; exact ih

/-- C10 witness: the one-field line `memlock:` is skipped and the
following line `memlock: 7` is parsed. -/
theorem parseMemlock_short_line_witness :
    parseMemlockFromFDInfoReader ⟨["memlock:", "memlock: 7"], none⟩ =
      parseMemlockFromFDInfoReader ⟨["memlock: 7"], none⟩ :=
  parseMemlock_short_line_skipped [] ["memlock: 7"] none "memlock:" (by decide)

/-- C5 amended: for every input stream, the parser scans line by line
until the first line with at least two whitespace-delimited fields
whose first field is the literal token `memlock:`, parses that line's
second field as a signed integer (`strconv.Atoi`, so a negative value
is returned as such) and returns it; it fails if no such line exists
before the stream ends, if the second field cannot be parsed as an
integer, or if the underlying read fails before any such line. -/
theorem parseMemlock_characterization :
    ∀ (lines : List String) (re : Option Err),
      parseMemlockFromFDInfoReader ⟨lines, re⟩ = memlockSpec ⟨lines, re⟩ := by
  intro lines re
  induction lines with
  | nil => cases re <;> rfl
  | cons l ls ih =>
    show parseMemlockLoop (l :: ls) re = _
    simp only [parseMemlockLoop, memlockSpec, List.find?]
    cases hg : goFields l with
    | nil =>
      have hml : isMemlockLine l = false := by simp [isMemlockLine, hg]
      rw [hml]
      exact ih
    | cons f0 tl =>
      cases tl with
      | nil =>
        have hml : isMemlockLine l = false := by simp [isMemlockLine, hg]
        rw [hml]
        exact ih
      | cons f1 tl' =>
        by_cases hf : f0 = "memlock:"
        · have hml : isMemlockLine l = true := by simp [isMemlockLine, hg, hf]
          rw [hml]
          have hsf : secondField l = some f1 := by simp [secondField, hg]
          simp [if_pos hf, hsf]
        · have hml : isMemlockLine l = false := by simp [isMemlockLine, hg, hf]
          rw [hml]
          have ih' : parseMemlockLoop ls re = memlockSpec ⟨ls, re⟩ := ih
          simp only [if_neg hf]
          rw [ih']
          rfl

/-- Removing an entry that loads successfully but classifies as
not-a-map from anywhere in the walk leaves the result of the
`FindPinnedMaps` loop unchanged, whatever has been accumulated. -/
theorem findPinnedMapsLoop_skip (obj : PinnedMapObj) (hobj : obj.isMapR = .ok false) :
    ∀ (l1 : List PinnedEntry) (acc : List ExtendedMapInfo) (l2 : List PinnedEntry),
      findPinnedMapsLoop acc (l1 ++ PinnedEntry.file (.ok obj) :: l2) =
        findPinnedMapsLoop acc (l1 ++ l2) := by
  intro l1
  induction l1 with
  | nil =>
    intro acc l2
    show findPinnedMapsLoop acc (PinnedEntry.file (.ok obj) :: l2) = _
    simp only [findPinnedMapsLoop, hobj]
    rfl
  | cons a l1' ih =>
    intro acc l2
    cases a with
    | dir =>
      simp only [List.cons_append, findPinnedMapsLoop]
      exact ih acc l2
    | file load =>
      cases load with
      | error e => simp only [List.cons_append, findPinnedMapsLoop]
      | ok o =>
        simp only [List.cons_append, findPinnedMapsLoop]
        cases o.isMapR with
        | error e => rfl
        | ok b =>
          cases b with
          | false => exact ih acc l2
          | true =>
            cases o.infoR with
            | error e => rfl
            | ok info =>
              cases parseMemlockFromFDInfo o.fdinfoR with
              | error e => rfl
              | ok memlock => exact ih (acc ++ [⟨info, memlock⟩]) l2

/-- When the `FindPinnedMaps` loop returns an error, some visited
entry caused an abort: a load failure, a classification error, or a
metadata/memlock failure on a confirmed map — never a mere wrong-kind
entry. -/
theorem findPinnedMapsLoop_error_cause :
    ∀ (l : List PinnedEntry) (acc : List ExtendedMapInfo) (e : Err),
      findPinnedMapsLoop acc l = .error e → ∃ ent ∈ l, pinnedEntryAborts ent := by
  intro l
  induction l with
  | nil =>
    intro acc e h
    exact absurd h (by simp [findPinnedMapsLoop])
  | cons a rest ih =>
    intro acc e h
    cases a with
    | dir =>
      obtain ⟨ent, hm, hab⟩ := ih acc e h
      exact ⟨ent, List.mem_cons_of_mem _ hm, hab⟩
    | file load =>
      cases load with
      | error e' =>
        exact ⟨PinnedEntry.file (.error e'), List.mem_cons_self _ _, trivial⟩
      | ok o =>
        rw [findPinnedMapsLoop] at h
        revert h
        cases him : o.isMapR with
        | error e' =>
          intro h
          exact ⟨PinnedEntry.file (.ok o), List.mem_cons_self _ _, Or.inl ⟨e', him⟩⟩
        | ok b =>
          cases b with
          | false =>
            intro h
            obtain ⟨ent, hm, hab⟩ := ih acc e h
            exact ⟨ent, List.mem_cons_of_mem _ hm, hab⟩
          | true =>
            cases hinfo : o.infoR with
            | error e' =>
              intro h
              exact ⟨PinnedEntry.file (.ok o), List.mem_cons_self _ _,
                Or.inr ⟨him, Or.inl ⟨e', hinfo⟩⟩⟩
            | ok info =>
              cases hml : parseMemlockFromFDInfo o.fdinfoR with
              | error e' =>
                intro h
                exact ⟨PinnedEntry.file (.ok o), List.mem_cons_self _ _,
                  Or.inr ⟨him, Or.inr ⟨e', hml⟩⟩⟩
              | ok memlock =>
                intro h
                obtain ⟨ent, hm, hab⟩ := ih (acc ++ [⟨info, memlock⟩]) e h
                exact ⟨ent, List.mem_cons_of_mem _ hm, hab⟩

/-- C1: the pinned-tree walker skips an entry that could not be taken
as a map because the object is of the wrong kind — the entry loads
(the generic pinned load succeeds even on non-maps) and classification
rejects it — and continues the walk as if the entry were absent; the
walk aborts only when some entry fails for a reason other than being
of the wrong kind (a load error, a classification error, or an
info/memlock failure on a confirmed map). -/
theorem findPinnedMaps_wrong_kind_skip_abort :
    (∀ (l1 l2 : List PinnedEntry) (obj : PinnedMapObj), obj.isMapR = .ok false →
      FindPinnedMaps (l1 ++ PinnedEntry.file (.ok obj) :: l2) = FindPinnedMaps (l1 ++ l2)) ∧
    (∀ (l : List PinnedEntry) (e : Err), FindPinnedMaps l = .error e →
      ∃ ent ∈ l, pinnedEntryAborts ent) :=
  ⟨fun l1 l2 obj hobj => findPinnedMapsLoop_skip obj hobj l1 [] l2,
   fun l e h => findPinnedMapsLoop_error_cause l [] e h⟩

/-- C1 witness: a lone wrong-kind entry is skipped — the walk over it
returns the same (empty) result as the walk over nothing. -/
theorem findPinnedMaps_wrong_kind_witness :
    FindPinnedMaps [PinnedEntry.file (.ok wrongKindObj)] = FindPinnedMaps [] := by
  have h := findPinnedMaps_wrong_kind_skip_abort.1 [] [] wrongKindObj (by decide)
  simpa using h

/-- The result (first component) of the `FindAllMaps` loop does not
depend on the cursor variable, the pending defer stack or the trace
accumulated so far. -/
theorem findAllMapsLoop_fst_indep :
    ∀ (script : List CursorResult) (kern : Int → Except Err MapObj)
      (acc : List ExtendedMapInfo) (p1 p2 : Int) (d1 d2 : List Int) (t1 t2 : List Event),
      (findAllMapsLoop kern p1 acc d1 t1 script).1 =
        (findAllMapsLoop kern p2 acc d2 t2 script).1 := by
  intro script
  induction script with
  | nil => intros; rfl
  | cons c rest ih =>
    intro kern acc p1 p2 d1 d2 t1 t2
    cases c with
    | notFound => rfl
    | failure e => rfl
    | next id =>
      cases hk : kern id with
      | error e => simp only [findAllMapsLoop, hk]
      | ok m =>
        cases hinfo : m.infoR with
        | error e => simp only [findAllMapsLoop, hk, hinfo]
        | ok info =>
          cases hml : parseMemlockFromFDInfo m.fdinfoR with
          | error e => simp only [findAllMapsLoop, hk, hinfo, hml]
          | ok memlock =>
            simp only [findAllMapsLoop, hk, hinfo, hml]
            exact ih kern (acc ++ [⟨info, memlock⟩]) id id _ _ _ _

/-- Unfolding of a successful `extractRec`: the open, the info read
and the memlock parse all succeeded and built the record. -/
theorem extractRec_some (kern : Int → Except Err MapObj) (id : Int)
    (r : ExtendedMapInfo) (h : extractRec kern id = some r) :
    ∃ m, kern id = .ok m ∧ ∃ info memlock, m.infoR = .ok info ∧
      parseMemlockFromFDInfo m.fdinfoR = .ok memlock ∧
      r = ⟨info, memlock⟩ := by
  unfold extractRec at h
  split at h
  · exact absurd h (by simp)
  · rename_i m hk
    split at h
    · rename_i info memlock hinfo hml
      exact ⟨m, hk, info, memlock, hinfo, hml, (Option.some.injEq _ _ ▸ h).symm⟩
    · exact absurd h (by simp)

/-- Consuming a prefix of cursor answers whose ids all extract
successfully appends exactly their records to the accumulator. -/
theorem findAllMapsLoop_good_run :
    ∀ (ids : List Int) (recs : List ExtendedMapInfo) (kern : Int → Except Err MapObj)
      (acc : List ExtendedMapInfo) (prev : Int) (d : List Int) (t : List Event)
      (rest : List CursorResult),
      extractAll kern ids = some recs →
      (findAllMapsLoop kern prev acc d t (ids.map CursorResult.next ++ rest)).1 =
        (findAllMapsLoop kern 0 (acc ++ recs) [] [] rest).1 := by
  intro ids
  induction ids with
  | nil =>
    intro recs kern acc prev d t rest h
    simp only [extractAll, Option.some.injEq] at h
    subst h
    simpa using findAllMapsLoop_fst_indep rest kern acc prev 0 d [] t []
  | cons id ids' ih =>
    intro recs kern acc prev d t rest h
    simp only [extractAll] at h
    split at h
    · rename_i r rs he hall
      simp only [Option.some.injEq] at h
      subst h
      obtain ⟨m, hk, info, memlock, hinfo, hml, hr⟩ := extractRec_some kern id r he
      subst hr
      simp only [List.map_cons, List.cons_append, List.append_eq, findAllMapsLoop,
        hk, hinfo, hml]
      have step := ih rs kern (acc ++ [⟨info, memlock⟩]) id (id :: d)
        (t ++ [Event.cursor prev, Event.openMap id]) rest hall
      refine step.trans ?_
      simp
    · exact absurd h (by simp)

/-- C4: the map enumerator treats a not-found reply from the next-ID
cursor as successful termination and returns every record collected so
far, in cursor order; a cursor failure, an open failure, an info-read
failure or a memlock-parse failure each abort the enumeration with an
error — the `Except` result carries no partial list. -/
theorem findAllMaps_enumeration :
    (∀ (kern : Int → Except Err MapObj) (ids : List Int) (recs : List ExtendedMapInfo)
       (rest : List CursorResult),
       extractAll kern ids = some recs →
       FindAllMaps kern (ids.map CursorResult.next ++ CursorResult.notFound :: rest) =
         .ok recs) ∧
    (∀ (kern : Int → Except Err MapObj) (ids : List Int) (recs : List ExtendedMapInfo)
       (e : Err) (rest : List CursorResult),
       extractAll kern ids = some recs →
       FindAllMaps kern (ids.map CursorResult.next ++ CursorResult.failure e :: rest) =
         .error (.wrap "didn't receive ENOENT at the end of iteration" e)) ∧
    (∀ (kern : Int → Except Err MapObj) (ids : List Int) (recs : List ExtendedMapInfo)
       (id : Int) (e : Err) (rest : List CursorResult),
       extractAll kern ids = some recs → kern id = .error e →
       FindAllMaps kern (ids.map CursorResult.next ++ CursorResult.next id :: rest) =
         .error (.wrap "failed to retrieve map from ID" e)) ∧
    (∀ (kern : Int → Except Err MapObj) (ids : List Int) (recs : List ExtendedMapInfo)
       (id : Int) (m : MapObj) (e : Err) (rest : List CursorResult),
       extractAll kern ids = some recs → kern id = .ok m → m.infoR = .error e →
       FindAllMaps kern (ids.map CursorResult.next ++ CursorResult.next id :: rest) =
         .error (.wrap "failed to retrieve map info" e)) ∧
    (∀ (kern : Int → Except Err MapObj) (ids : List Int) (recs : List ExtendedMapInfo)
       (id : Int) (m : MapObj) (info : MapInfo) (e : Err) (rest : List CursorResult),
       extractAll kern ids = some recs → kern id = .ok m → m.infoR = .ok info →
       parseMemlockFromFDInfo m.fdinfoR = .error e →
       FindAllMaps kern (ids.map CursorResult.next ++ CursorResult.next id :: rest) =
         .error (.wrap "failed parsing fdinfo to retrieve memlock" e)) := by
  refine ⟨?_, ?_, ?_, ?_, ?_⟩
  · intro kern ids recs rest h
    show (findAllMapsLoop kern 0 [] [] [] _).1 = _
    rw [findAllMapsLoop_good_run ids recs kern [] 0 [] [] _ h]
    rfl
  · intro kern ids recs e rest h
    show (findAllMapsLoop kern 0 [] [] [] _).1 = _
    rw [findAllMapsLoop_good_run ids recs kern [] 0 [] [] _ h]
    rfl
  · intro kern ids recs id e rest h hk
    show (findAllMapsLoop kern 0 [] [] [] _).1 = _
    rw [findAllMapsLoop_good_run ids recs kern [] 0 [] [] _ h]
    simp only [findAllMapsLoop, hk]
  · intro kern ids recs id m e rest h hk hinfo
    show (findAllMapsLoop kern 0 [] [] [] _).1 = _
    rw [findAllMapsLoop_good_run ids recs kern [] 0 [] [] _ h]
    simp only [findAllMapsLoop, hk, hinfo]
  · intro kern ids recs id m info e rest h hk hinfo hml
    show (findAllMapsLoop kern 0 [] [] [] _).1 = _
    rw [findAllMapsLoop_good_run ids recs kern [] 0 [] [] _ h]
    simp only [findAllMapsLoop, hk, hinfo, hml]

/-- C4 witness: a cursor yielding ids 1, 2, 3 and then not-found, over
a kernel where every open succeeds, yields exactly the three records
in cursor (ascending id) order. -/
theorem findAllMaps_enumeration_witness :
    FindAllMaps allOpensOK
        [CursorResult.next 1, CursorResult.next 2, CursorResult.next 3,
         CursorResult.notFound] =
      .ok [sampleRec 1, sampleRec 2, sampleRec 3] := by
  have h := findAllMaps_enumeration.1 allOpensOK [1, 2, 3]
    [sampleRec 1, sampleRec 2, sampleRec 3] [] (by decide)
  simpa using h

/-- Occurrence counts distribute over concatenation. -/
theorem countOf_append {α : Type} [DecidableEq α] (a : α) (l1 l2 : List α) :
    countOf a (l1 ++ l2) = countOf a l1 + countOf a l2 := by
  induction l1 with
  | nil => simp [countOf]
  | cons x rest ih => simp [countOf, ih, Nat.add_assoc]

/-- Flushing a defer stack emits one close per deferred id. -/
theorem countOf_close_flush (id : Int) (d : List Int) :
    countOf (Event.closeMap id) (flushDefers d) = countOf id d := by
  induction d with
  | nil => rfl
  | cons x rest ih =>
    simp only [flushDefers] at ih
    simp [flushDefers, countOf, ih]

/-- Flushing a defer stack emits no open events. -/
theorem countOf_open_flush (id : Int) (d : List Int) :
    countOf (Event.openMap id) (flushDefers d) = 0 := by
  induction d with
  | nil => rfl
  | cons x rest ih =>
    simp only [flushDefers] at ih
    simp [flushDefers, countOf, ih]

/-- Shape of the `FindAllMaps` trace: whatever the script, the events
produced after the initial `trace` are a close-free body followed by
the flush of the defers accumulated on top of the inherited ones, and
the defers accumulated by the body are exactly the ids it opened. -/
theorem findAllMapsLoop_trace_shape :
    ∀ (script : List CursorResult) (kern : Int → Except Err MapObj) (prev : Int)
      (acc : List ExtendedMapInfo) (defers : List Int) (trace : List Event),
      ∃ (body : List Event) (newDefers : List Int),
        (findAllMapsLoop kern prev acc defers trace script).2 =
          trace ++ body ++ flushDefers (newDefers ++ defers) ∧
        (∀ id, countOf (Event.closeMap id) body = 0) ∧
        (∀ id, countOf (Event.openMap id) body = countOf id newDefers) := by
  intro script
  induction script with
  | nil =>
    intro kern prev acc defers trace
    exact ⟨[], [], by simp [findAllMapsLoop], fun id => rfl, fun id => rfl⟩
  | cons c rest ih =>
    intro kern prev acc defers trace
    cases c with
    | notFound =>
      refine ⟨[Event.cursor prev], [], by simp [findAllMapsLoop], ?_, ?_⟩ <;>
        · intro id; simp [countOf]
    | failure e =>
      refine ⟨[Event.cursor prev], [], by simp [findAllMapsLoop], ?_, ?_⟩ <;>
        · intro id; simp [countOf]
    | next id =>
      cases hk : kern id with
      | error e =>
        refine ⟨[Event.cursor prev], [], by simp [findAllMapsLoop, hk], ?_, ?_⟩ <;>
          · intro id'; simp [countOf]
      | ok m =>
        cases hinfo : m.infoR with
        | error e =>
          refine ⟨[Event.cursor prev, Event.openMap id], [id], ?_, ?_, ?_⟩
          · simp [findAllMapsLoop, hk, hinfo]
          · intro id'; simp [countOf]
          · intro id'; simp [countOf]
        | ok info =>
          cases hml : parseMemlockFromFDInfo m.fdinfoR with
          | error e =>
            refine ⟨[Event.cursor prev, Event.openMap id], [id], ?_, ?_, ?_⟩
            · simp [findAllMapsLoop, hk, hinfo, hml]
            · intro id'; simp [countOf]
            · intro id'; simp [countOf]
          | ok memlock =>
            obtain ⟨body', nd', hsh, hcl, hop⟩ := ih kern id (acc ++ [⟨info, memlock⟩])
              (id :: defers) (trace ++ [Event.cursor prev, Event.openMap id])
            refine ⟨[Event.cursor prev, Event.openMap id] ++ body', nd' ++ [id], ?_, ?_, ?_⟩
            · simp only [findAllMapsLoop, hk, hinfo, hml]
              rw [hsh]
              simp
            · intro id'
              rw [countOf_append]
              simp [countOf, hcl id']
            · intro id'
              rw [countOf_append, countOf_append, hop id']
              by_cases hid : id = id' <;> simp [countOf, hid, Nat.add_comm]

/-- C8 amended: on every exit path of the enumeration — clean
termination, cursor failure, open/info/memlock failure — each opened
handle is closed exactly once, but all the closes are deferred to the
return of `FindAllMaps` (Go `defer` inside the loop), so a handle is
not released before the next cursor step: the trace is a close-free
body followed by one close per opened handle. -/
theorem findAllMaps_release_at_exit :
    ∀ (kern : Int → Except Err MapObj) (script : List CursorResult),
      ∃ (body : List Event) (defers : List Int),
        (FindAllMapsT kern script).2 = body ++ flushDefers defers ∧
        (∀ id, countOf (Event.closeMap id) body = 0) ∧
        (∀ id, countOf (Event.openMap id) body = countOf id defers) ∧
        (∀ id, countOf (Event.openMap id) (FindAllMapsT kern script).2 =
          countOf (Event.closeMap id) (FindAllMapsT kern script).2) := by
  intro kern script
  obtain ⟨body, nd, hsh, hcl, hop⟩ := findAllMapsLoop_trace_shape script kern 0 [] [] []
  have h2 : (FindAllMapsT kern script).2 = body ++ flushDefers nd := by simpa using hsh
  refine ⟨body, nd, h2, hcl, hop, ?_⟩
  intro id
  rw [h2, countOf_append, countOf_append, hop id, hcl id,
    countOf_open_flush, countOf_close_flush]
  omega

/-- C8 counterexample: with ids 1 and 2 enumerated successfully, the
full trace closes both handles only at the very end (LIFO), and in
particular no close of handle 1 occurs before the next cursor step —
the first three events are cursor, open 1, cursor, with no close —
refuting "released immediately after extraction, before the next
cursor step". -/
theorem findAllMaps_defer_counterexample :
    (FindAllMapsT allOpensOK
        [CursorResult.next 1, CursorResult.next 2, CursorResult.notFound]).2 =
      [Event.cursor 0, Event.openMap 1, Event.cursor 1, Event.openMap 2, Event.cursor 2,
       Event.closeMap 2, Event.closeMap 1] ∧
    (FindAllMapsT allOpensOK
        [CursorResult.next 1, CursorResult.next 2, CursorResult.notFound]).2.take 3 =
      [Event.cursor 0, Event.openMap 1, Event.cursor 1] ∧
    countOf (Event.closeMap 1)
      ((FindAllMapsT allOpensOK
        [CursorResult.next 1, CursorResult.next 2, CursorResult.notFound]).2.take 3) = 0 :=
  ⟨by decide, by decide, by decide⟩

/-- Totals distribute over concatenated aggregation sets. -/
theorem sumAgg_append (s1 s2 : List (String × AggEntry)) :
    sumAgg (s1 ++ s2) = sumAgg s1 + sumAgg s2 := by
  simp [sumAgg]

/-- A name that fails lookup is not among the keys. -/
theorem lookupName_none (n : String) :
    ∀ s : List (String × AggEntry), lookupName s n = none → n ∉ s.map Prod.fst := by
  intro s
  induction s with
  | nil => intro _; simp
  | cons p rest ih =>
    intro h
    simp only [lookupName] at h
    split at h
    · exact absurd h (by simp)
    · rename_i hh
      simp only [List.map_cons, List.mem_cons, not_or]
      exact ⟨fun heq => hh heq.symm, ih h⟩

/-- Updating a key that is absent changes nothing. -/
theorem updateName_not_mem (n : String) (v : AggEntry) :
    ∀ s : List (String × AggEntry), n ∉ s.map Prod.fst → updateName s n v = s := by
  intro s
  induction s with
  | nil => intro _; rfl
  | cons p rest ih =>
    intro h
    simp only [List.map_cons, List.mem_cons, not_or] at h
    simp only [updateName, List.map_cons] at ih ⊢
    rw [if_neg (fun hh => h.1 hh.symm), ih h.2]

/-- Updating a value leaves the key list unchanged. -/
theorem updateName_names (n : String) (v : AggEntry) :
    ∀ s : List (String × AggEntry),
      (updateName s n v).map Prod.fst = s.map Prod.fst := by
  intro s
  induction s with
  | nil => rfl
  | cons p rest ih =>
    simp only [updateName, List.map_cons] at ih ⊢
    by_cases hp : p.1 = n
    · rw [if_pos hp, ih, hp]
    · rw [if_neg hp, ih]

/-- Replacing the entry of a present key by `v` changes the total by
the difference between `v`'s and the old entry's accumulated memlock
(stated additively). -/
theorem sumAgg_updateName (n : String) (v : AggEntry) :
    ∀ (s : List (String × AggEntry)) (e : AggEntry), namesNodup s →
      lookupName s n = some e →
      sumAgg (updateName s n v) + e.info.memlock = sumAgg s + v.info.memlock := by
  intro s
  induction s with
  | nil => intro e _ h; exact absurd h (by simp [lookupName])
  | cons p rest ih =>
    intro e hnd h
    simp only [namesNodup, List.map_cons, List.nodup_cons] at hnd
    simp only [lookupName] at h
    simp only [updateName, List.map_cons]
    split at h
    · rename_i hp
      have he : e = p.2 := by injection h with hh; exact hh.symm
      subst he
      rw [if_pos hp]
      have hrest : updateName rest n v = rest := by
        have : n ∉ rest.map Prod.fst := hp ▸ hnd.1
        have hu := updateName_not_mem n v rest this
        simpa [updateName] using hu
      simp only [updateName] at hrest
      rw [hrest]
      simp [sumAgg]
      omega
    · rename_i hp
      rw [if_neg hp]
      have := ih e hnd.2 h
      simp only [updateName] at this
      simp only [sumAgg, List.map_cons, List.sum_cons] at this ⊢
      omega

/-- One aggregation step adds exactly the record's memlock to the
total. -/
theorem sumAgg_aggStep (s : List (String × AggEntry)) (m : ExtendedMapInfo)
    (h : namesNodup s) : sumAgg (aggStep s m) = sumAgg s + m.memlock := by
  unfold aggStep
  cases hl : lookupName s m.info.name with
  | none => simp [sumAgg_append, sumAgg]
  | some e =>
    show sumAgg (updateName s m.info.name
        { e with info := { e.info with memlock := e.info.memlock + m.memlock },
                 count := e.count + 1 }) = sumAgg s + m.memlock
    have key := sumAgg_updateName m.info.name
      { e with info := { e.info with memlock := e.info.memlock + m.memlock },
               count := e.count + 1 } s e h hl
    simp only at key ⊢
    omega

/-- One aggregation step keeps the keys distinct. -/
theorem namesNodup_aggStep (s : List (String × AggEntry)) (m : ExtendedMapInfo)
    (h : namesNodup s) : namesNodup (aggStep s m) := by
  unfold aggStep
  cases hl : lookupName s m.info.name with
  | none =>
    have hnot := lookupName_none m.info.name s hl
    simp only [namesNodup] at h ⊢
    simp [List.nodup_append, h, hnot]
  | some e =>
    simp only [namesNodup] at h ⊢
    rw [updateName_names]
    exact h

/-- The aggregation loop adds the total memlock of the records it
consumes. -/
theorem sumAgg_aggregate :
    ∀ (recs : List ExtendedMapInfo) (s : List (String × AggEntry)), namesNodup s →
      sumAgg (recs.foldl aggStep s) = sumAgg s + TotalByteMemlock recs := by
  intro recs
  induction recs with
  | nil => intro s _; simp [TotalByteMemlock]
  | cons m rest ih =>
    intro s h
    simp only [List.foldl_cons]
    rw [ih (aggStep s m) (namesNodup_aggStep s m h), sumAgg_aggStep s m h]
    simp only [TotalByteMemlock, List.map_cons, List.sum_cons]
    omega

/-- C7: for every union collection (in any iteration order), the sum
of `TotalMemlock` over the aggregated-by-name entries equals the sum
of `Memlock` over the union records — grouping, sorting and
projecting into the output struct preserve the total. -/
theorem aggregation_preserves_total_memlock :
    ∀ unionRecs : List ExtendedMapInfo,
      ((buildAggregatedMaps unionRecs).map (fun a => a.totalMemlock)).sum =
        TotalByteMemlock unionRecs := by
  intro recs
  unfold buildAggregatedMaps
  rw [List.map_map]
  have hperm := (List.perm_insertionSort (fun a b : AggEntry => a.info.memlock ≥ b.info.memlock)
    ((aggregate recs).map Prod.snd)).map
    (fun e : AggEntry => e.info.memlock)
  have hsum : ((((aggregate recs).map Prod.snd).insertionSort
        (fun a b : AggEntry => a.info.memlock ≥ b.info.memlock)).map
        (fun e : AggEntry => e.info.memlock)).sum =
      (((aggregate recs).map Prod.snd).map (fun e : AggEntry => e.info.memlock)).sum :=
    hperm.sum_eq
  calc ((((aggregate recs).map Prod.snd).insertionSort
          (fun a b : AggEntry => a.info.memlock ≥ b.info.memlock)).map
          ((fun a : AggregatedMap => a.totalMemlock) ∘ fun e : AggEntry =>
            { name := e.info.info.name, typ := e.info.info.typ,
              keySize := e.info.info.keySize, valueSize := e.info.info.valueSize,
              maxEntries := e.info.info.maxEntries, count := e.count,
              totalMemlock := e.info.memlock })).sum
      = (((aggregate recs).map Prod.snd).map (fun e : AggEntry => e.info.memlock)).sum := by
        rw [← hsum]
        rfl
    _ = sumAgg (aggregate recs) := by
        rw [List.map_map]
        rfl
    _ = TotalByteMemlock recs := by
        have := sumAgg_aggregate recs [] (by simp [namesNodup])
        simpa [sumAgg] using this

end Bugtool
